import Mathlib

/-!
Verification of the site-watcher scan-diff-notify pipeline and its client.

The repository ships a React/TypeScript client (frontend/src) together with a
Flask/SQLite backend described by the project README and the specification;
the backend modules (app.py, scraper.py, database.py, models.py) are not part
of the provided sources, so the store, diff engine and scan orchestrator are
modelled from the specification, while the client-side logic (services/api.ts,
App.tsx, SettingsPage.tsx, ScanButton.tsx) is embedded directly from the
TypeScript sources.  Timestamps are modelled as natural numbers (milliseconds
since the epoch, matching the JavaScript Date renderings).
-/

namespace SiteWatcher

/-- Timestamps are milliseconds since the epoch. -/
abbrev Timestamp := Nat

/-- Candidate record produced by the Extractor: title, date label, link and
normalized content (spec section 4.2). -/
structure CandidateRecord where
  title : String
  date_text : String
  link : String
  content : String
  deriving DecidableEq, Repr

/-- Modelled from the spec: the backend content digest (scraper/database are
not under the provided sources).  Any deterministic digest of the normalized
content realises the spec; a polynomial rolling hash is used here. -/
def content_hash (s : String) : Nat :=
  s.data.foldl (fun h c => (h * 131 + c.toNat + 1) % 1000000007) 7

/-- Announcement row, per the data model of spec section 3 and the client type
in frontend/src/types/index.ts.  Two model-only fields beyond the client
shape: `content` keeps the last observed normalized content so that a
modified Change can carry `old_content` (spec section 4.3 step 3), and
`removed` records the logical removal mark kept by the store
(`markRemoved`, spec sections 4.1 and 3: rows are never physically deleted). -/
structure Announcement where
  id : Nat
  title : String
  date_text : String
  link : String
  content_hash : Nat
  first_seen : Timestamp
  last_seen : Timestamp
  content : String
  removed : Bool
  deriving DecidableEq, Repr

/-- Change classification (frontend/src/types/index.ts, spec section 3). -/
inductive ChangeType where
  | new
  | modified
  | removed
  deriving DecidableEq, Repr

/-- Change record, per frontend/src/types/index.ts and spec section 3. -/
structure Change where
  id : Nat
  announcement_id : Option Nat
  change_type : ChangeType
  detected_at : Timestamp
  title : String
  old_content : Option String
  new_content : Option String
  deriving DecidableEq, Repr

/-- Settings, per frontend/src/types/index.ts and spec section 3. -/
structure Settings where
  refresh_interval : Nat
  email_enabled : Bool
  email_sender : String
  email_recipients : List String
  smtp_server : String
  smtp_port : Nat
  smtp_username : String
  smtp_password : String
  deriving DecidableEq, Repr

/-- ScanStatus snapshot, per spec section 3 (the backend status payload read
by App.tsx, which consumes `next_auto_scan` for its countdown). -/
structure ScanStatus where
  last_scan : Option Timestamp
  is_scanning : Bool
  announcement_count : Nat
  error : Option String
  next_auto_scan : Option Timestamp
  deriving DecidableEq, Repr

/-- Modelled from the spec: the diff engine's lookup of the previous
announcement set by `link` (spec section 4.3 step 1; backend not under the
provided sources). -/
def lookupByLink (previous : List Announcement) (l : String) : Option Announcement :=
  previous.find? (fun a => a.link == l)

/-- Modelled from the spec: the Change emitted for a candidate classified
`new` (spec section 4.3 step 2): no `old_content`; the surrogate id and the
owning announcement id are assigned by the store on commit. -/
def newChange (c : CandidateRecord) (now : Timestamp) : Change :=
  { id := 0, announcement_id := none, change_type := ChangeType.new,
    detected_at := now, title := c.title,
    old_content := none, new_content := some c.content }

/-- Modelled from the spec: the Change emitted for a candidate classified
`modified` (spec section 4.3 step 3), carrying both normalized contents. -/
def modifiedChange (a : Announcement) (c : CandidateRecord) (now : Timestamp) : Change :=
  { id := 0, announcement_id := some a.id, change_type := ChangeType.modified,
    detected_at := now, title := c.title,
    old_content := some a.content, new_content := some c.content }

/-- Modelled from the spec: the Change emitted for a previous entry classified
`removed` (spec section 4.3 step 5): no `new_content`. -/
def removedChange (a : Announcement) (now : Timestamp) : Change :=
  { id := 0, announcement_id := some a.id, change_type := ChangeType.removed,
    detected_at := now, title := a.title,
    old_content := some a.content, new_content := none }

/-- Update entry of a DiffPlan: new hash, new content, new last_seen for the
announcement identified by `link` (spec section 4.3 step 3). -/
structure UpdateEntry where
  link : String
  new_hash : Nat
  new_content : String
  new_last_seen : Timestamp
  deriving DecidableEq, Repr

/-- Modelled from the spec: the DiffPlan returned by the diff engine
(spec section 4.3), extended with the refresh list of step 4 and the ordered
Change list of the tie-break rule. -/
structure DiffPlan where
  toCreate : List CandidateRecord
  toUpdate : List UpdateEntry
  toRemove : List Announcement
  toRefresh : List String
  changes : List Change
  deriving DecidableEq, Repr

/-- Modelled from the spec: candidates paired with their previous
announcement found by `link` (spec section 4.3 steps 1 and 3). -/
def pairedWithPrev (previous : List Announcement) (candidates : List CandidateRecord) :
    List (Announcement × CandidateRecord) :=
  candidates.filterMap (fun c => (lookupByLink previous c.link).map (fun a => (a, c)))

/-- Modelled from the spec: candidates whose `link` is absent from the
previous set, classified `new` (spec section 4.3 step 2). -/
def newCandidates (previous : List Announcement) (candidates : List CandidateRecord) :
    List CandidateRecord :=
  candidates.filter (fun c => (lookupByLink previous c.link).isNone)

/-- Modelled from the spec: paired candidates whose content hash differs from
the stored one, classified `modified` (spec section 4.3 step 3). -/
def modifiedPairs (previous : List Announcement) (candidates : List CandidateRecord) :
    List (Announcement × CandidateRecord) :=
  (pairedWithPrev previous candidates).filter
    (fun p => content_hash p.2.content != p.1.content_hash)

/-- Modelled from the spec: paired candidates whose content hash matches the
stored one; only `last_seen` is refreshed (spec section 4.3 step 4). -/
def unchangedPairs (previous : List Announcement) (candidates : List CandidateRecord) :
    List (Announcement × CandidateRecord) :=
  (pairedWithPrev previous candidates).filter
    (fun p => content_hash p.2.content == p.1.content_hash)

/-- Modelled from the spec: previous entries whose `link` is absent from the
candidate set, classified `removed` (spec section 4.3 step 5). -/
def removedAnns (previous : List Announcement) (candidates : List CandidateRecord) :
    List Announcement :=
  previous.filter (fun a => candidates.all (fun c => c.link != a.link))

/-- Modelled from the spec: the update emitted for a modified pair: new hash,
new content, new last_seen (spec section 4.3 step 3). -/
def updateEntryFor (a : Announcement) (c : CandidateRecord) (now : Timestamp) : UpdateEntry :=
  { link := a.link, new_hash := content_hash c.content,
    new_content := c.content, new_last_seen := now }

/-- Modelled from the spec: the pure diff engine (spec section 4.3; backend
not under the provided sources).  Candidates absent from the previous set are
created, present candidates with a differing content hash are updated,
matching candidates are only refreshed, and previous entries absent from the
candidate set are removed.  Changes are ordered new, then modified, then
removed, each group in original candidate (respectively previous) order. -/
def diff (previous : List Announcement) (candidates : List CandidateRecord)
    (now : Timestamp) : DiffPlan :=
  { toCreate := newCandidates previous candidates
    toUpdate := (modifiedPairs previous candidates).map
      (fun p => updateEntryFor p.1 p.2 now)
    toRemove := removedAnns previous candidates
    toRefresh := (unchangedPairs previous candidates).map (fun p => p.1.link)
    changes :=
      (newCandidates previous candidates).map (fun c => newChange c now)
        ++ (modifiedPairs previous candidates).map (fun p => modifiedChange p.1 p.2 now)
        ++ (removedAnns previous candidates).map (fun a => removedChange a now) }

/-- Modelled from the spec: the Store's durable state (spec section 4.1;
database.py is not under the provided sources): announcement rows, the
append-only change log in commit order, and the surrogate id counters. -/
structure StoreState where
  announcements : List Announcement
  changes : List Change
  next_ann_id : Nat
  next_change_id : Nat
  deriving DecidableEq, Repr

/-- Modelled from the spec: the currently-tracked (non-removed) announcements,
the previous set handed to the diff engine and the basis of
`announcement_count` (spec sections 3 and 4.3). -/
def tracked (s : StoreState) : List Announcement :=
  s.announcements.filter (fun a => !a.removed)

/-- Modelled from the spec: the announcement row created for a `new`
candidate, with `first_seen = last_seen = detected_at` (spec section 8). -/
def createAnn (c : CandidateRecord) (idv : Nat) (now : Timestamp) : Announcement :=
  { id := idv, title := c.title, date_text := c.date_text, link := c.link,
    content_hash := content_hash c.content, first_seen := now, last_seen := now,
    content := c.content, removed := false }

/-- Modelled from the spec: creation of one announcement row per entry of
`toCreate`, assigning consecutive surrogate ids. -/
def createAll : List CandidateRecord → Nat → Timestamp → List Announcement
  | [], _, _ => []
  | c :: cs, n, now => createAnn c n now :: createAll cs (n + 1) now

/-- Modelled from the spec: the store assigns monotonically increasing
surrogate ids to appended Change records (spec section 3). -/
def assignIds : List Change → Nat → List Change
  | [], _ => []
  | ch :: chs, n => { ch with id := n } :: assignIds chs (n + 1)

/-- Modelled from the spec: the per-row effect of committing a DiffPlan
(spec sections 4.1 and 4.3): an update rewrites hash, content and last_seen;
a refresh only advances last_seen; a removal sets the logical removal mark and
nothing else; rows already marked removed are left untouched. -/
def applyAnn (plan : DiffPlan) (now : Timestamp) (a : Announcement) : Announcement :=
  if a.removed then a
  else
    match plan.toUpdate.find? (fun u => u.link == a.link) with
    | some u =>
        { a with content_hash := u.new_hash, content := u.new_content,
                 last_seen := u.new_last_seen }
    | none =>
        if plan.toRefresh.contains a.link then { a with last_seen := now }
        else if plan.toRemove.any (fun r => r.link == a.link) then
          { a with removed := true }
        else a

/-- Modelled from the spec: the atomic store commit of one scan's DiffPlan
(spec section 4.1): every announcement row is rewritten by `applyAnn`, one
fresh row is created per `toCreate` entry, and the plan's Change records are
appended to the log with fresh ids.  Nothing is ever deleted. -/
def applyPlan (s : StoreState) (plan : DiffPlan) (now : Timestamp) : StoreState :=
  { announcements :=
      s.announcements.map (applyAnn plan now) ++ createAll plan.toCreate s.next_ann_id now
    changes := s.changes ++ assignIds plan.changes s.next_change_id
    next_ann_id := s.next_ann_id + plan.toCreate.length
    next_change_id := s.next_change_id + plan.changes.length }

/-- Modelled from the spec: descending insertion by `detected_at` used by the
change listing (spec section 3: ordered by `detected_at` descending). -/
def insertByDetectedDesc (c : Change) : List Change → List Change
  | [] => [c]
  | d :: ds =>
      if c.detected_at ≤ d.detected_at then d :: insertByDetectedDesc c ds
      else c :: d :: ds

/-- Modelled from the spec: sort of the change log by `detected_at`
descending, newest first. -/
def sortByDetectedDesc : List Change → List Change
  | [] => []
  | c :: cs => insertByDetectedDesc c (sortByDetectedDesc cs)

/-- Modelled from the spec: `listChanges(limit)` (spec section 4.1), the
newest `limit` change records ordered by `detected_at` descending. -/
def listChanges (s : StoreState) (limit : Nat) : List Change :=
  (sortByDetectedDesc s.changes).take limit

/-- Modelled from the spec: the orchestrator-owned system state
(spec sections 3 and 4.5; app.py is not under the provided sources). -/
structure SystemState where
  store : StoreState
  settings : Settings
  is_scanning : Bool
  last_scan : Option Timestamp
  error : Option String
  next_auto_scan : Option Timestamp
  deriving DecidableEq, Repr

/-- Modelled from the spec: the status snapshot served to the client
(spec section 3), consumed by App.tsx. -/
def getStatus (s : SystemState) : ScanStatus :=
  { last_scan := s.last_scan, is_scanning := s.is_scanning,
    announcement_count := (tracked s.store).length, error := s.error,
    next_auto_scan := s.next_auto_scan }

/-- Modelled from the spec: the manual scan trigger (spec section 4.5): a
trigger while a scan is in flight is a no-op answered with
"already scanning"; otherwise the scan lock is taken, `is_scanning` is set
and the error is cleared. -/
def triggerScan (s : SystemState) : SystemState × String :=
  if s.is_scanning then (s, "already scanning")
  else ({ s with is_scanning := true, error := none }, "started")

/-- Modelled from the spec: the mass-removal guard (spec section 4.3 edge
case): the orchestrator refuses a diff removing more than a configurable
majority of the tracked items unless the page parsed as genuinely empty; the
smallest majority, strictly more than half, is used here. -/
def removalGuardTrips (trackedCount removeCount : Nat) (genuinelyEmpty : Bool) : Bool :=
  !genuinelyEmpty && decide (2 * removeCount > trackedCount)

/-- Modelled from the spec: the scan body and its completion transition
(spec section 4.5): diff the candidates against the tracked snapshot; if the
mass-removal guard trips, apply nothing and record an error, otherwise commit
the plan, stamp `last_scan` and clear the error; either way release the lock
and recompute `next_auto_scan` from the refresh interval (in seconds, times
1000 for millisecond timestamps). -/
def runScan (s : SystemState) (candidates : List CandidateRecord)
    (genuinelyEmpty : Bool) (now : Timestamp) : SystemState :=
  let prev := tracked s.store
  let plan := diff prev candidates now
  if removalGuardTrips prev.length plan.toRemove.length genuinelyEmpty then
    { s with is_scanning := false,
             error := some "mass removal guard: diff not applied",
             next_auto_scan := some (now + 1000 * s.settings.refresh_interval) }
  else
    { s with store := applyPlan s.store plan now,
             is_scanning := false,
             last_scan := some now,
             error := none,
             next_auto_scan := some (now + 1000 * s.settings.refresh_interval) }

/-- Modelled from the spec: the settings put operation (spec sections 3 and
4.5): the new settings take effect for the next scheduling decision, and
`next_auto_scan` is recomputed relative to the most recent scan. -/
def putSettings (s : SystemState) (v : Settings) (now : Timestamp) : SystemState :=
  { s with settings := v,
           next_auto_scan := some (s.last_scan.getD now + 1000 * v.refresh_interval) }

/-- Client call of frontend/src/services/api.ts: `fetchStatus`, served by the
status snapshot. -/
def fetchStatus (s : SystemState) : ScanStatus :=
  getStatus s

/-- Client call of frontend/src/services/api.ts: `fetchAnnouncements`, served
by the tracked announcement listing. -/
def fetchAnnouncements (s : SystemState) : List Announcement :=
  tracked s.store

/-- Client call of frontend/src/services/api.ts: `fetchChanges(limit = 50)`,
served by `listChanges`. -/
def fetchChanges (s : SystemState) (limit : Nat) : List Change :=
  listChanges s.store limit

/-- Client call of frontend/src/services/api.ts: `fetchChanges` at its default
limit of 50. -/
def fetchChangesDefault (s : SystemState) : List Change :=
  fetchChanges s 50

/-- Modelled from the spec: the settings get endpoint (spec section 6,
settings get/put); the client-side `fetchSettings` that SettingsPage.tsx
pulls in is not among the provided api.ts sources. -/
def fetchSettings (s : SystemState) : Settings :=
  s.settings

/-- Modelled from the spec: the settings put endpoint of spec section 6; the
client-side `updateSettings` of SettingsPage.tsx's import is not among the
provided api.ts sources). -/
def updateSettings (s : SystemState) (v : Settings) (now : Timestamp) : SystemState :=
  putSettings s v now

/-- Embedded from frontend/src/components/ScanButton.tsx: the button carries
`disabled={disabled || isScanning}`, so it cannot fire while a scan is in
flight. -/
def scanButtonDisabled (disabled isScanning : Bool) : Bool :=
  disabled || isScanning

/-- Local state of the settings editor, frontend/src/components/
SettingsPage.tsx: the loaded settings, the recipient input box and the error
banner. -/
structure EditorState where
  settings : Settings
  newRecipient : String
  error : Option String
  deriving DecidableEq, Repr

/-- JavaScript's `String.prototype.trim`, modelled on the character list:
leading and trailing whitespace characters are dropped. -/
def jsTrim (s : String) : String :=
  String.mk (((s.data.dropWhile Char.isWhitespace).reverse.dropWhile
      Char.isWhitespace).reverse)

/-- JavaScript's `String.prototype.includes` for the single character at sign,
modelled on the character list. -/
def containsAt (s : String) : Bool :=
  s.data.contains '@'

/-- Embedded from SettingsPage.tsx `addRecipient`: a blank input is ignored;
an input without an at sign sets a validation error; an input whose trimmed
form is already listed sets a duplicate error; otherwise the trimmed address
is appended, the box is cleared and the error reset. -/
def addRecipient (st : EditorState) : EditorState :=
  let t := jsTrim st.newRecipient
  if t.data.isEmpty then st
  else if !(containsAt st.newRecipient) then
    { st with error := some "Please enter a valid email address" }
  else if st.settings.email_recipients.contains t then
    { st with error := some "Email already in recipients list" }
  else
    { st with
        settings := { st.settings with
            email_recipients := st.settings.email_recipients ++ [t] },
        newRecipient := "",
        error := none }

/-- Embedded from SettingsPage.tsx `removeRecipient`: keeps every recipient
different from the removed address. -/
def removeRecipient (st : EditorState) (email : String) : EditorState :=
  { st with settings := { st.settings with
      email_recipients := st.settings.email_recipients.filter (fun r => r != email) } }

/-- Embedded from SettingsPage.tsx: the refresh-interval slider is a range
input with min 60, max 3600 and step 60; the browser clamps the control's
value into the min-max range, so `parseInt(e.target.value)` always lands in
the closed interval from 60 to 3600. -/
def sliderClamp (v : Int) : Int :=
  max 60 (min 3600 v)

/-- Embedded from SettingsPage.tsx: the slider's onChange stores the (clamped)
integer value as `refresh_interval`. -/
def setRefreshInterval (st : EditorState) (v : Int) : EditorState :=
  { st with settings := { st.settings with refresh_interval := (sliderClamp v).toNat } }

/-- One user interaction with the settings editor. -/
inductive EditorOp where
  | add (input : String)
  | remove (email : String)
  | setInterval (v : Int)
  deriving DecidableEq, Repr

/-- Effect of one editor interaction on the editor state: an add first types
the input into the recipient box and then presses Add. -/
def applyOp (st : EditorState) : EditorOp → EditorState
  | EditorOp.add input => addRecipient { st with newRecipient := input }
  | EditorOp.remove email => removeRecipient st email
  | EditorOp.setInterval v => setRefreshInterval st v

/-- Effect of a sequence of editor interactions. -/
def applyOps (st : EditorState) (ops : List EditorOp) : EditorState :=
  ops.foldl applyOp st

/-- Client-side alert state of frontend/src/App.tsx: the previously observed
change count (`lastChangeCount` ref), the alert visibility and its payload. -/
structure AppAlertState where
  lastChangeCount : Nat
  showAlert : Bool
  newChanges : List Change
  deriving DecidableEq, Repr

/-- Embedded from App.tsx `loadData` (the change-detection block): when the
fetched list is strictly longer than the previously observed count and that
count is positive, the first length-difference entries become the alert
payload, the alert is shown and the notification sound plays (the returned
Boolean); afterwards the observed count is updated to the fetched length. -/
def loadDataChanges (st : AppAlertState) (changesData : List Change) :
    AppAlertState × Bool :=
  let n := changesData.length
  if n > st.lastChangeCount ∧ st.lastChangeCount > 0 then
    let newOnes := changesData.take (n - st.lastChangeCount)
    if 0 < newOnes.length then
      ({ lastChangeCount := n, showAlert := true, newChanges := newOnes }, true)
    else ({ st with lastChangeCount := n }, false)
  else ({ st with lastChangeCount := n }, false)

/-- Two-digit zero padding used by the countdown display of App.tsx. -/
def pad2 (n : Nat) : String :=
  if n < 10 then "0" ++ toString n else toString n

/-- Embedded from App.tsx `updateCountdown`: the countdown is derived from the
server's `next_auto_scan`; with no status yet the display is a placeholder,
with a future deadline it shows minutes and seconds, otherwise it shows that
a scan is underway. -/
def updateCountdown (status : Option ScanStatus) (nowMs : Int) : String :=
  match status with
  | none => "--:--"
  | some st =>
    match st.next_auto_scan with
    | some t =>
        let remaining : Int := (t : Int) - nowMs
        if 0 < remaining then
          let minutes := (remaining / 60000).toNat
          let seconds := ((remaining % 60000) / 1000).toNat
          toString minutes ++ ":" ++ pad2 seconds
        else "Scanning..."
    | none => if st.is_scanning then "Scanning..." else "--:--"

/-- Concrete settings fixture used to evaluate the theorems below. -/
def exSettings : Settings :=
  { refresh_interval := 600, email_enabled := false, email_sender := "",
    email_recipients := [], smtp_server := "", smtp_port := 587,
    smtp_username := "", smtp_password := "" }

/-- Concrete tracked announcement fixture. -/
def exAnnA : Announcement :=
  { id := 1, title := "A", date_text := "d1", link := "a",
    content_hash := content_hash "x", first_seen := 0, last_seen := 0,
    content := "x", removed := false }

/-- Concrete candidate fixture with the link of `exAnnA` but fresh content. -/
def exCandA : CandidateRecord :=
  { title := "A", date_text := "d1", link := "a", content := "z" }

/-- Concrete candidate fixture with a link absent from the previous set. -/
def exCandB : CandidateRecord :=
  { title := "B", date_text := "d2", link := "b", content := "y" }

/-- Concrete system-state fixture holding one tracked announcement. -/
def exSys : SystemState :=
  { store := { announcements := [exAnnA], changes := [], next_ann_id := 2,
               next_change_id := 1 },
    settings := exSettings, is_scanning := false, last_scan := none,
    error := none, next_auto_scan := none }

/-- Concrete system-state fixture with a scan in flight. -/
def exSysScanning : SystemState :=
  { exSys with is_scanning := true }

/-- Concrete settings-editor fixture. -/
def exEditor : EditorState :=
  { settings := exSettings, newRecipient := "", error := none }

/-- Concrete settings-editor fixture with a blank recipient input. -/
def exEditorBlank : EditorState :=
  { settings := exSettings, newRecipient := " ", error := none }

/-- Concrete client alert-state fixture with one previously observed change. -/
def exAlertSt : AppAlertState :=
  { lastChangeCount := 1, showAlert := false, newChanges := [] }

/-- Concrete change fixture. -/
def exChange (i : Nat) (t : Timestamp) : Change :=
  { id := i, announcement_id := none, change_type := ChangeType.new,
    detected_at := t, title := "A", old_content := none, new_content := some "x" }

theorem applyAnn_id (p : DiffPlan) (now : Timestamp) (a : Announcement) :
    (applyAnn p now a).id = a.id := by
  unfold applyAnn
  repeat' split
  all_goals rfl

theorem applyAnn_link (p : DiffPlan) (now : Timestamp) (a : Announcement) :
    (applyAnn p now a).link = a.link := by
  unfold applyAnn
  repeat' split
  all_goals rfl

theorem applyAnn_first_seen (p : DiffPlan) (now : Timestamp) (a : Announcement) :
    (applyAnn p now a).first_seen = a.first_seen := by
  unfold applyAnn
  repeat' split
  all_goals rfl

theorem applyAnn_of_removed (p : DiffPlan) (now : Timestamp) (a : Announcement)
    (h : a.removed = true) : applyAnn p now a = a := by
  unfold applyAnn
  simp [h]

theorem applyAnn_hash_of_no_update (p : DiffPlan) (now : Timestamp) (a : Announcement)
    (h : p.toUpdate = []) : (applyAnn p now a).content_hash = a.content_hash := by
  unfold applyAnn
  rw [h]
  simp only [List.find?_nil]
  repeat' split
  all_goals rfl

theorem lookupByLink_eq_some {previous : List Announcement} {l : String}
    {a : Announcement} (h : lookupByLink previous l = some a) :
    a ∈ previous ∧ a.link = l := by
  unfold lookupByLink at h
  refine ⟨List.mem_of_find?_eq_some h, ?_⟩
  have h2 := List.find?_some h
  simpa using h2

theorem lookupByLink_self {previous : List Announcement}
    (hnd : (previous.map Announcement.link).Nodup) {a : Announcement}
    (ha : a ∈ previous) : lookupByLink previous a.link = some a := by
  induction previous with
  | nil => cases ha
  | cons b bs ih =>
    simp only [List.map_cons, List.nodup_cons, List.mem_map] at hnd
    rcases List.mem_cons.mp ha with h | hmem
    · subst h
      unfold lookupByLink
      exact List.find?_cons_of_pos _ (by simp)
    · have hne : (b.link == a.link) = false := by
        simp only [beq_eq_false_iff_ne, ne_eq]
        intro hcontra
        exact hnd.1 ⟨a, hmem, hcontra.symm⟩
      unfold lookupByLink
      rw [List.find?_cons_of_neg _ (by simp [hne]), ← lookupByLink]
      exact ih hnd.2 hmem

theorem mem_newCandidates {previous : List Announcement}
    {candidates : List CandidateRecord} {c : CandidateRecord} :
    c ∈ newCandidates previous candidates ↔
      c ∈ candidates ∧ lookupByLink previous c.link = none := by
  unfold newCandidates
  simp [List.mem_filter, Option.isNone_iff_eq_none]

theorem mem_pairedWithPrev {previous : List Announcement}
    {candidates : List CandidateRecord} {a : Announcement} {c : CandidateRecord} :
    (a, c) ∈ pairedWithPrev previous candidates ↔
      c ∈ candidates ∧ lookupByLink previous c.link = some a := by
  unfold pairedWithPrev
  simp only [List.mem_filterMap, Option.map_eq_some']
  constructor
  · rintro ⟨c1, hc1, a1, ha1, heq⟩
    injection heq with h1 h2
    subst h1
    subst h2
    exact ⟨hc1, ha1⟩
  · rintro ⟨hc, ha⟩
    exact ⟨c, hc, a, ha, rfl⟩

theorem mem_removedAnns {previous : List Announcement}
    {candidates : List CandidateRecord} {a : Announcement} :
    a ∈ removedAnns previous candidates ↔
      a ∈ previous ∧ ∀ c ∈ candidates, c.link ≠ a.link := by
  unfold removedAnns
  simp [List.mem_filter, List.all_eq_true, bne_iff_ne]

theorem mem_modifiedPairs {previous : List Announcement}
    {candidates : List CandidateRecord} {p : Announcement × CandidateRecord} :
    p ∈ modifiedPairs previous candidates ↔
      p ∈ pairedWithPrev previous candidates ∧
        content_hash p.2.content ≠ p.1.content_hash := by
  unfold modifiedPairs
  simp [List.mem_filter, bne_iff_ne]

theorem mem_unchangedPairs {previous : List Announcement}
    {candidates : List CandidateRecord} {p : Announcement × CandidateRecord} :
    p ∈ unchangedPairs previous candidates ↔
      p ∈ pairedWithPrev previous candidates ∧
        content_hash p.2.content = p.1.content_hash := by
  unfold unchangedPairs
  simp [List.mem_filter]

theorem pairedWithPrev_facts {previous : List Announcement}
    {candidates : List CandidateRecord} {a : Announcement} {c : CandidateRecord}
    (h : (a, c) ∈ pairedWithPrev previous candidates) :
    a ∈ previous ∧ a.link = c.link ∧ c ∈ candidates := by
  have h1 := mem_pairedWithPrev.mp h
  have h2 := lookupByLink_eq_some h1.2
  exact ⟨h2.1, h2.2, h1.1⟩

theorem pairedWithPrev_link_inj {previous : List Announcement}
    {candidates : List CandidateRecord}
    (hcand : (candidates.map CandidateRecord.link).Nodup)
    {a a1 : Announcement} {c c1 : CandidateRecord}
    (h : (a, c) ∈ pairedWithPrev previous candidates)
    (h1 : (a1, c1) ∈ pairedWithPrev previous candidates)
    (hl : a.link = a1.link) : a = a1 ∧ c = c1 := by
  obtain ⟨hc, hlook⟩ := mem_pairedWithPrev.mp h
  obtain ⟨hc1, hlook1⟩ := mem_pairedWithPrev.mp h1
  have hal := (lookupByLink_eq_some hlook).2
  have hal1 := (lookupByLink_eq_some hlook1).2
  have hcc : c = c1 :=
    List.inj_on_of_nodup_map hcand hc hc1 (by rw [← hal, ← hal1, hl])
  subst hcc
  rw [hlook] at hlook1
  exact ⟨Option.some.inj hlook1, rfl⟩

theorem mem_diff_toUpdate {previous : List Announcement}
    {candidates : List CandidateRecord} {now : Timestamp} {u : UpdateEntry} :
    u ∈ (diff previous candidates now).toUpdate ↔
      ∃ p ∈ modifiedPairs previous candidates, u = updateEntryFor p.1 p.2 now := by
  unfold diff
  simp only [List.mem_map]
  constructor
  · rintro ⟨p, hp, rfl⟩
    exact ⟨p, hp, rfl⟩
  · rintro ⟨p, hp, rfl⟩
    exact ⟨p, hp, rfl⟩

theorem mem_diff_toRefresh {previous : List Announcement}
    {candidates : List CandidateRecord} {now : Timestamp} {l : String} :
    l ∈ (diff previous candidates now).toRefresh ↔
      ∃ p ∈ unchangedPairs previous candidates, l = p.1.link := by
  unfold diff
  simp only [List.mem_map]
  constructor
  · rintro ⟨p, hp, rfl⟩
    exact ⟨p, hp, rfl⟩
  · rintro ⟨p, hp, rfl⟩
    exact ⟨p, hp, rfl⟩

theorem toUpdate_entry_unique {previous : List Announcement}
    {candidates : List CandidateRecord} {now : Timestamp}
    (hcand : (candidates.map CandidateRecord.link).Nodup)
    {a : Announcement} {c : CandidateRecord}
    (hpair : (a, c) ∈ pairedWithPrev previous candidates)
    {u : UpdateEntry} (hu : u ∈ (diff previous candidates now).toUpdate)
    (hlink : u.link = a.link) :
    (a, c) ∈ modifiedPairs previous candidates ∧ u = updateEntryFor a c now := by
  obtain ⟨p, hp, rfl⟩ := mem_diff_toUpdate.mp hu
  have hpPaired : (p.1, p.2) ∈ pairedWithPrev previous candidates :=
    (mem_modifiedPairs.mp hp).1
  have hlink1 : p.1.link = a.link := hlink
  obtain ⟨h1, h2⟩ := pairedWithPrev_link_inj hcand hpPaired hpair hlink1
  rw [show p = (a, c) from Prod.ext h1 h2] at hp
  exact ⟨hp, by rw [updateEntryFor, updateEntryFor, h1, h2]⟩

theorem no_update_for_unchanged {previous : List Announcement}
    {candidates : List CandidateRecord} (now : Timestamp)
    (hcand : (candidates.map CandidateRecord.link).Nodup)
    {a : Announcement} {c : CandidateRecord}
    (hpair : (a, c) ∈ pairedWithPrev previous candidates)
    (heq : content_hash c.content = a.content_hash) :
    (diff previous candidates now).toUpdate.find? (fun u => u.link == a.link) = none := by
  rw [List.find?_eq_none]
  intro u hu hbeq
  have hlink : u.link = a.link := by simpa using hbeq
  obtain ⟨hmod, rfl⟩ := toUpdate_entry_unique hcand hpair hu hlink
  exact (mem_modifiedPairs.mp hmod).2 heq

theorem find_update_of_modified {previous : List Announcement}
    {candidates : List CandidateRecord} (now : Timestamp)
    (hcand : (candidates.map CandidateRecord.link).Nodup)
    {a : Announcement} {c : CandidateRecord}
    (hpair : (a, c) ∈ pairedWithPrev previous candidates)
    (hne : content_hash c.content ≠ a.content_hash) :
    (diff previous candidates now).toUpdate.find? (fun u => u.link == a.link)
      = some (updateEntryFor a c now) := by
  have hmem : (a, c) ∈ modifiedPairs previous candidates :=
    mem_modifiedPairs.mpr ⟨hpair, hne⟩
  have humem : updateEntryFor a c now ∈ (diff previous candidates now).toUpdate :=
    mem_diff_toUpdate.mpr ⟨(a, c), hmem, rfl⟩
  cases hfind : (diff previous candidates now).toUpdate.find? (fun u => u.link == a.link) with
  | none =>
      rw [List.find?_eq_none] at hfind
      exact absurd (by simp [updateEntryFor]) (hfind _ humem)
  | some u0 =>
      have hu0 := List.mem_of_find?_eq_some hfind
      have hl : u0.link = a.link := by simpa using List.find?_some hfind
      obtain ⟨_, rfl⟩ := toUpdate_entry_unique hcand hpair hu0 hl
      rfl

theorem toUpdate_link_is_candidate {previous : List Announcement}
    {candidates : List CandidateRecord} {now : Timestamp} {u : UpdateEntry}
    (hu : u ∈ (diff previous candidates now).toUpdate) :
    ∃ c ∈ candidates, u.link = c.link := by
  obtain ⟨p, hp, rfl⟩ := mem_diff_toUpdate.mp hu
  have hpPaired : (p.1, p.2) ∈ pairedWithPrev previous candidates :=
    (mem_modifiedPairs.mp hp).1
  obtain ⟨_, hlink, hc⟩ := pairedWithPrev_facts hpPaired
  exact ⟨p.2, hc, hlink⟩

theorem toRefresh_link_is_candidate {previous : List Announcement}
    {candidates : List CandidateRecord} {now : Timestamp} {l : String}
    (hl : l ∈ (diff previous candidates now).toRefresh) :
    ∃ c ∈ candidates, l = c.link := by
  obtain ⟨p, hp, rfl⟩ := mem_diff_toRefresh.mp hl
  have hpPaired : (p.1, p.2) ∈ pairedWithPrev previous candidates :=
    (mem_unchangedPairs.mp hp).1
  obtain ⟨_, hlink, hc⟩ := pairedWithPrev_facts hpPaired
  exact ⟨p.2, hc, hlink⟩

theorem contains_iff_mem {l : List String} {x : String} :
    l.contains x = true ↔ x ∈ l := by
  simp [List.contains]

theorem diff_toCreate_eq (previous : List Announcement)
    (candidates : List CandidateRecord) (now : Timestamp) :
    (diff previous candidates now).toCreate = newCandidates previous candidates := rfl

theorem diff_toRemove_eq (previous : List Announcement)
    (candidates : List CandidateRecord) (now : Timestamp) :
    (diff previous candidates now).toRemove = removedAnns previous candidates := rfl

theorem diff_changes_eq (previous : List Announcement)
    (candidates : List CandidateRecord) (now : Timestamp) :
    (diff previous candidates now).changes =
      (newCandidates previous candidates).map (fun c => newChange c now)
        ++ (modifiedPairs previous candidates).map (fun p => modifiedChange p.1 p.2 now)
        ++ (removedAnns previous candidates).map (fun a => removedChange a now) := rfl

theorem applyAnn_update {p : DiffPlan} (now : Timestamp) {a : Announcement}
    {u : UpdateEntry} (ha : a.removed = false)
    (hfind : p.toUpdate.find? (fun v => v.link == a.link) = some u) :
    applyAnn p now a =
      { a with content_hash := u.new_hash, content := u.new_content,
               last_seen := u.new_last_seen } := by
  unfold applyAnn
  rw [if_neg (by simp [ha]), hfind]

theorem applyAnn_refresh {p : DiffPlan} (now : Timestamp) {a : Announcement}
    (ha : a.removed = false)
    (hfind : p.toUpdate.find? (fun v => v.link == a.link) = none)
    (href : p.toRefresh.contains a.link = true) :
    applyAnn p now a = { a with last_seen := now } := by
  unfold applyAnn
  rw [if_neg (by simp [ha]), hfind]
  simp only [href, if_true]

theorem applyAnn_remove {p : DiffPlan} {now : Timestamp} {a : Announcement}
    (ha : a.removed = false)
    (hfind : p.toUpdate.find? (fun v => v.link == a.link) = none)
    (href : p.toRefresh.contains a.link = false)
    (hrem : p.toRemove.any (fun r => r.link == a.link) = true) :
    applyAnn p now a = { a with removed := true } := by
  unfold applyAnn
  rw [if_neg (by simp [ha]), hfind]
  simp only [href, hrem, Bool.false_eq_true, if_false, if_true]

theorem applyAnn_removes {previous : List Announcement}
    {candidates : List CandidateRecord} {now : Timestamp} {a : Announcement}
    (ha : a.removed = false) (hmem : a ∈ removedAnns previous candidates) :
    applyAnn (diff previous candidates now) now a = { a with removed := true } := by
  have hno : ∀ c ∈ candidates, c.link ≠ a.link := (mem_removedAnns.mp hmem).2
  have hfind : (diff previous candidates now).toUpdate.find?
      (fun v => v.link == a.link) = none := by
    rw [List.find?_eq_none]
    intro u hu hbeq
    obtain ⟨c, hc, hlink⟩ := toUpdate_link_is_candidate hu
    have hua : u.link = a.link := by simpa using hbeq
    exact hno c hc (by rw [← hlink, hua])
  have href : (diff previous candidates now).toRefresh.contains a.link = false := by
    rw [Bool.eq_false_iff]
    intro hcontra
    obtain ⟨c, hc, hlink⟩ := toRefresh_link_is_candidate (contains_iff_mem.mp hcontra)
    exact hno c hc hlink.symm
  have hrem : (diff previous candidates now).toRemove.any
      (fun r => r.link == a.link) = true := by
    rw [List.any_eq_true]
    exact ⟨a, hmem, by simp⟩
  exact applyAnn_remove ha hfind href hrem

theorem createAnn_removed (c : CandidateRecord) (i : Nat) (now : Timestamp) :
    (createAnn c i now).removed = false := rfl

theorem createAnn_link (c : CandidateRecord) (i : Nat) (now : Timestamp) :
    (createAnn c i now).link = c.link := rfl

theorem createAnn_hash (c : CandidateRecord) (i : Nat) (now : Timestamp) :
    (createAnn c i now).content_hash = content_hash c.content := rfl

theorem createAll_of_mem {cs : List CandidateRecord} {c : CandidateRecord}
    (hc : c ∈ cs) (n : Nat) (now : Timestamp) :
    ∃ i, createAnn c i now ∈ createAll cs n now := by
  induction cs generalizing n with
  | nil => cases hc
  | cons d ds ih =>
    rcases List.mem_cons.mp hc with h | h
    · subst h
      exact ⟨n, List.mem_cons_self _ _⟩
    · obtain ⟨i, hi⟩ := ih h (n + 1)
      exact ⟨i, List.mem_cons_of_mem _ hi⟩

theorem createAll_members {cs : List CandidateRecord} {n : Nat} {now : Timestamp}
    {a : Announcement} (ha : a ∈ createAll cs n now) :
    ∃ c ∈ cs, ∃ i, a = createAnn c i now := by
  induction cs generalizing n with
  | nil => cases ha
  | cons d ds ih =>
    rcases List.mem_cons.mp ha with h | h
    · exact ⟨d, List.mem_cons_self _ _, n, h⟩
    · obtain ⟨c, hc, i, hi⟩ := ih h
      exact ⟨c, List.mem_cons_of_mem _ hc, i, hi⟩

theorem createAll_filter_unremoved (cs : List CandidateRecord) (n : Nat)
    (now : Timestamp) :
    (createAll cs n now).filter (fun a => !a.removed) = createAll cs n now := by
  induction cs generalizing n with
  | nil => rfl
  | cons d ds ih =>
    show List.filter _ (_ :: _) = _
    rw [List.filter_cons]
    simp only [createAnn_removed, Bool.not_false, if_true]
    rw [ih]
    rfl

theorem createAll_links (cs : List CandidateRecord) (n : Nat) (now : Timestamp) :
    (createAll cs n now).map Announcement.link = cs.map CandidateRecord.link := by
  induction cs generalizing n with
  | nil => rfl
  | cons d ds ih =>
    show _ :: _ = _
    rw [ih]
    rfl

theorem tracked_applyPlan (s : StoreState) (plan : DiffPlan) (now : Timestamp) :
    tracked (applyPlan s plan now) =
      (s.announcements.map (applyAnn plan now)).filter (fun a => !a.removed)
        ++ (createAll plan.toCreate s.next_ann_id now).filter (fun a => !a.removed) := by
  unfold tracked applyPlan
  rw [List.filter_append]

theorem applyPlan_covers_candidate (s : StoreState)
    {candidates : List CandidateRecord} (now : Timestamp)
    (hcand : (candidates.map CandidateRecord.link).Nodup)
    {c : CandidateRecord} (hc : c ∈ candidates) :
    ∃ a ∈ tracked (applyPlan s (diff (tracked s) candidates now) now),
      a.link = c.link ∧ a.content_hash = content_hash c.content := by
  rw [tracked_applyPlan]
  cases hlook : lookupByLink (tracked s) c.link with
  | none =>
      have hnew : c ∈ newCandidates (tracked s) candidates :=
        mem_newCandidates.mpr ⟨hc, hlook⟩
      have hcreate : c ∈ (diff (tracked s) candidates now).toCreate := by
        rw [diff_toCreate_eq]
        exact hnew
      obtain ⟨i, hi⟩ := createAll_of_mem hcreate s.next_ann_id now
      refine ⟨createAnn c i now, ?_, createAnn_link c i now, createAnn_hash c i now⟩
      rw [createAll_filter_unremoved]
      exact List.mem_append_right _ hi
  | some a0 =>
      obtain ⟨ha0mem, ha0link⟩ := lookupByLink_eq_some hlook
      have hpair : (a0, c) ∈ pairedWithPrev (tracked s) candidates :=
        mem_pairedWithPrev.mpr ⟨hc, hlook⟩
      obtain ⟨ha0s, ha0rem⟩ := List.mem_filter.mp ha0mem
      have ha0rem1 : a0.removed = false := by simpa using ha0rem
      by_cases hh : content_hash c.content = a0.content_hash
      · have hfind := no_update_for_unchanged now hcand hpair hh
        have href : (diff (tracked s) candidates now).toRefresh.contains a0.link = true :=
          contains_iff_mem.mpr (mem_diff_toRefresh.mpr
            ⟨(a0, c), mem_unchangedPairs.mpr ⟨hpair, hh⟩, rfl⟩)
        have heq := applyAnn_refresh now ha0rem1 hfind href
        refine ⟨applyAnn (diff (tracked s) candidates now) now a0, ?_, ?_, ?_⟩
        · apply List.mem_append_left
          refine List.mem_filter.mpr ⟨List.mem_map_of_mem _ ha0s, ?_⟩
          rw [heq]
          simpa using ha0rem1
        · rw [applyAnn_link]
          exact ha0link
        · rw [heq]
          exact hh.symm
      · have hfind := find_update_of_modified now hcand hpair hh
        have heq := applyAnn_update now ha0rem1 hfind
        refine ⟨applyAnn (diff (tracked s) candidates now) now a0, ?_, ?_, ?_⟩
        · apply List.mem_append_left
          refine List.mem_filter.mpr ⟨List.mem_map_of_mem _ ha0s, ?_⟩
          rw [heq]
          simpa using ha0rem1
        · rw [applyAnn_link]
          exact ha0link
        · rw [heq]
          rfl

theorem tracked_applyPlan_link_is_candidate {s : StoreState}
    {candidates : List CandidateRecord} {now : Timestamp} {b : Announcement}
    (hb : b ∈ tracked (applyPlan s (diff (tracked s) candidates now) now)) :
    ∃ c ∈ candidates, c.link = b.link := by
  rw [tracked_applyPlan] at hb
  rcases List.mem_append.mp hb with h | h
  · obtain ⟨hmem, hrem⟩ := List.mem_filter.mp h
    obtain ⟨a, ha, rfl⟩ := List.mem_map.mp hmem
    by_cases har : a.removed = true
    · rw [applyAnn_of_removed _ _ _ har] at hrem
      simp [har] at hrem
    · have har1 : a.removed = false := by simpa using har
      by_cases hex : ∃ c ∈ candidates, c.link = a.link
      · obtain ⟨c, hcmem, hl⟩ := hex
        refine ⟨c, hcmem, ?_⟩
        rw [applyAnn_link]
        exact hl
      · have hmemprev : a ∈ tracked s :=
          List.mem_filter.mpr ⟨ha, by simp [har1]⟩
        have hremAnns : a ∈ removedAnns (tracked s) candidates :=
          mem_removedAnns.mpr ⟨hmemprev, fun c hcmem hlink => hex ⟨c, hcmem, hlink⟩⟩
        rw [applyAnn_removes har1 hremAnns] at hrem
        simp at hrem
  · obtain ⟨hmem, _⟩ := List.mem_filter.mp h
    obtain ⟨c, hcmem, i, rfl⟩ := createAll_members hmem
    have hcnew : c ∈ newCandidates (tracked s) candidates := by
      rw [← diff_toCreate_eq (tracked s) candidates now]
      exact hcmem
    exact ⟨c, (mem_newCandidates.mp hcnew).1, rfl⟩

theorem trackedLinks_sublist (p : DiffPlan) (now : Timestamp)
    (l : List Announcement) :
    List.Sublist
      (((l.map (applyAnn p now)).filter (fun a => !a.removed)).map Announcement.link)
      ((l.filter (fun a => !a.removed)).map Announcement.link) := by
  induction l with
  | nil => simp
  | cons a l ih =>
    rw [List.map_cons, List.filter_cons, List.filter_cons]
    by_cases har : a.removed = true
    · rw [applyAnn_of_removed _ _ _ har]
      simp only [har, Bool.not_true, Bool.false_eq_true, if_false]
      exact ih
    · have har1 : a.removed = false := by simpa using har
      by_cases hgr : (applyAnn p now a).removed = true
      · simp only [hgr, har1, Bool.not_true, Bool.not_false, Bool.false_eq_true,
          if_false, if_true, List.map_cons]
        exact ih.trans (List.sublist_cons_self _ _)
      · have hgr1 : (applyAnn p now a).removed = false := by simpa using hgr
        simp only [hgr1, har1, Bool.not_false, if_true, List.map_cons, applyAnn_link]
        exact List.Sublist.cons₂ _ ih

theorem tracked_applyPlan_nodup (s : StoreState)
    {candidates : List CandidateRecord} (now : Timestamp)
    (hprev : ((tracked s).map Announcement.link).Nodup)
    (hcand : (candidates.map CandidateRecord.link).Nodup) :
    ((tracked (applyPlan s (diff (tracked s) candidates now) now)).map
      Announcement.link).Nodup := by
  rw [tracked_applyPlan, List.map_append]
  have hsub1 := trackedLinks_sublist (diff (tracked s) candidates now) now s.announcements
  have hcreated :
      ((createAll (diff (tracked s) candidates now).toCreate s.next_ann_id now).filter
          (fun a => !a.removed)).map Announcement.link
        = (newCandidates (tracked s) candidates).map CandidateRecord.link := by
    rw [createAll_filter_unremoved, createAll_links, diff_toCreate_eq]
  refine List.Nodup.append ?_ ?_ ?_
  · exact hsub1.nodup hprev
  · rw [hcreated]
    have hsub2 : List.Sublist
        ((newCandidates (tracked s) candidates).map CandidateRecord.link)
        (candidates.map CandidateRecord.link) := by
      unfold newCandidates
      exact (List.filter_sublist _).map _
    exact hsub2.nodup hcand
  · intro x hx1 hx2
    have hx1mem : x ∈ (tracked s).map Announcement.link := hsub1.mem hx1
    rw [hcreated] at hx2
    obtain ⟨c, hcmem, rfl⟩ := List.mem_map.mp hx2
    have hlook : lookupByLink (tracked s) c.link = none :=
      (mem_newCandidates.mp hcmem).2
    unfold lookupByLink at hlook
    rw [List.find?_eq_none] at hlook
    obtain ⟨a, hamem, halink⟩ := List.mem_map.mp hx1mem
    exact hlook a hamem (by simp [halink])

theorem second_diff_no_new (s : StoreState) {candidates : List CandidateRecord}
    (t1 : Timestamp)
    (hcand : (candidates.map CandidateRecord.link).Nodup) :
    newCandidates (tracked (applyPlan s (diff (tracked s) candidates t1) t1))
      candidates = [] := by
  rw [newCandidates, List.filter_eq_nil_iff]
  intro c hc hisnone
  obtain ⟨a, hamem, hal, _⟩ := applyPlan_covers_candidate s t1 hcand hc
  rw [Option.isNone_iff_eq_none] at hisnone
  unfold lookupByLink at hisnone
  rw [List.find?_eq_none] at hisnone
  exact hisnone a hamem (by simp [hal])

theorem second_diff_no_removed (s : StoreState) (candidates : List CandidateRecord)
    (t1 : Timestamp) :
    removedAnns (tracked (applyPlan s (diff (tracked s) candidates t1) t1))
      candidates = [] := by
  rw [removedAnns, List.filter_eq_nil_iff]
  intro a ha hall
  obtain ⟨c, hc, hl⟩ := tracked_applyPlan_link_is_candidate ha
  rw [List.all_eq_true] at hall
  have := hall c hc
  simp only [bne_iff_ne, ne_eq] at this
  exact this hl

theorem second_diff_no_modified (s : StoreState) {candidates : List CandidateRecord}
    (t1 : Timestamp)
    (hprev : ((tracked s).map Announcement.link).Nodup)
    (hcand : (candidates.map CandidateRecord.link).Nodup) :
    modifiedPairs (tracked (applyPlan s (diff (tracked s) candidates t1) t1))
      candidates = [] := by
  rw [modifiedPairs, List.filter_eq_nil_iff]
  intro p hp hbne
  have hfacts := pairedWithPrev_facts hp
  obtain ⟨hp1mem, hp1link, hp2mem⟩ := hfacts
  obtain ⟨a, hamem, hal, hahash⟩ := applyPlan_covers_candidate s t1 hcand hp2mem
  have hnd := tracked_applyPlan_nodup s t1 hprev hcand
  have heqa : a = p.1 :=
    List.inj_on_of_nodup_map hnd hamem hp1mem (by rw [hal, hp1link])
  rw [bne_iff_ne, ne_eq] at hbne
  rw [heqa] at hahash
  exact hbne hahash.symm

theorem diff_empty_of_parts {previous : List Announcement}
    {candidates : List CandidateRecord} (now : Timestamp)
    (h1 : newCandidates previous candidates = [])
    (h2 : modifiedPairs previous candidates = [])
    (h3 : removedAnns previous candidates = []) :
    diff previous candidates now =
      { toCreate := [], toUpdate := [], toRemove := [],
        toRefresh := (unchangedPairs previous candidates).map (fun p => p.1.link),
        changes := [] } := by
  unfold diff
  rw [h1, h2, h3]
  rfl

theorem runScan_guard_true (s : SystemState) (candidates : List CandidateRecord)
    (ge : Bool) (now : Timestamp)
    (h : removalGuardTrips (tracked s.store).length
        (removedAnns (tracked s.store) candidates).length ge = true) :
    runScan s candidates ge now =
      { s with is_scanning := false,
               error := some "mass removal guard: diff not applied",
               next_auto_scan := some (now + 1000 * s.settings.refresh_interval) } := by
  simp only [runScan]
  rw [diff_toRemove_eq, h]
  rfl

theorem runScan_guard_false (s : SystemState) (candidates : List CandidateRecord)
    (ge : Bool) (now : Timestamp)
    (h : removalGuardTrips (tracked s.store).length
        (removedAnns (tracked s.store) candidates).length ge = false) :
    runScan s candidates ge now =
      { s with store := applyPlan s.store (diff (tracked s.store) candidates now) now,
               is_scanning := false, last_scan := some now, error := none,
               next_auto_scan := some (now + 1000 * s.settings.refresh_interval) } := by
  simp only [runScan]
  rw [diff_toRemove_eq, h]
  rfl

theorem removalGuardTrips_zero (n : Nat) (ge : Bool) :
    removalGuardTrips n 0 ge = false := by
  unfold removalGuardTrips
  simp

/-- C2: running a scan twice in a row with identical candidate output is
idempotent: for every system state and candidate sequence (links unique, the
natural-key invariant of spec section 3), the second scan appends zero Change
records to the store, and every announcement row keeps its id, `content_hash`
and `first_seen`; moreover `first_seen` is immutable under every committed
plan. -/
theorem scan_idempotent (s : SystemState) (candidates : List CandidateRecord)
    (ge : Bool) (t1 t2 : Timestamp)
    (hprev : ((tracked s.store).map Announcement.link).Nodup)
    (hcand : (candidates.map CandidateRecord.link).Nodup) :
    (runScan (runScan s candidates ge t1) candidates ge t2).store.changes
      = (runScan s candidates ge t1).store.changes ∧
    ((runScan (runScan s candidates ge t1) candidates ge t2).store.announcements.map
        (fun a => (a.id, a.content_hash, a.first_seen)))
      = ((runScan s candidates ge t1).store.announcements.map
        (fun a => (a.id, a.content_hash, a.first_seen))) ∧
    (∀ (p : DiffPlan) (t : Timestamp) (a : Announcement),
      (applyAnn p t a).first_seen = a.first_seen) := by
  cases hguard : removalGuardTrips (tracked s.store).length
      (removedAnns (tracked s.store) candidates).length ge with
  | true =>
      have h1 := runScan_guard_true s candidates ge t1 hguard
      have hstore1 : (runScan s candidates ge t1).store = s.store := by rw [h1]
      have hguard2 : removalGuardTrips (tracked (runScan s candidates ge t1).store).length
          (removedAnns (tracked (runScan s candidates ge t1).store) candidates).length ge
          = true := by
        rw [hstore1]
        exact hguard
      have h2 := runScan_guard_true (runScan s candidates ge t1) candidates ge t2 hguard2
      have hstore2 : (runScan (runScan s candidates ge t1) candidates ge t2).store
          = (runScan s candidates ge t1).store := by rw [h2]
      exact ⟨by rw [hstore2], by rw [hstore2], fun p t a => applyAnn_first_seen p t a⟩
  | false =>
      have h1 := runScan_guard_false s candidates ge t1 hguard
      have hstore1 : (runScan s candidates ge t1).store
          = applyPlan s.store (diff (tracked s.store) candidates t1) t1 := by rw [h1]
      have hguard2 : removalGuardTrips (tracked (runScan s candidates ge t1).store).length
          (removedAnns (tracked (runScan s candidates ge t1).store) candidates).length ge
          = false := by
        rw [hstore1, second_diff_no_removed s.store candidates t1]
        exact removalGuardTrips_zero _ ge
      have h2 := runScan_guard_false (runScan s candidates ge t1) candidates ge t2 hguard2
      have hstore2 : (runScan (runScan s candidates ge t1) candidates ge t2).store
          = applyPlan (runScan s candidates ge t1).store
              (diff (tracked (runScan s candidates ge t1).store) candidates t2) t2 := by
        rw [h2]
      have hplan2 : diff (tracked (runScan s candidates ge t1).store) candidates t2
          = { toCreate := [], toUpdate := [], toRemove := [],
              toRefresh := (unchangedPairs
                  (tracked (runScan s candidates ge t1).store) candidates).map
                (fun p => p.1.link),
              changes := [] } := by
        rw [hstore1]
        exact diff_empty_of_parts t2 (second_diff_no_new s.store t1 hcand)
          (second_diff_no_modified s.store t1 hprev hcand)
          (second_diff_no_removed s.store candidates t1)
      refine ⟨?_, ?_, fun p t a => applyAnn_first_seen p t a⟩
      · rw [hstore2, hplan2]
        simp [applyPlan, assignIds]
      · rw [hstore2, hplan2]
        simp only [applyPlan]
        rw [show createAll [] (runScan s candidates ge t1).store.next_ann_id t2
            = [] from rfl]
        rw [List.append_nil, List.map_map]
        apply List.map_congr_left
        intro a ha
        have hh := applyAnn_hash_of_no_update
          { toCreate := [], toUpdate := [], toRemove := [],
            toRefresh := (unchangedPairs
                (tracked (runScan s candidates ge t1).store) candidates).map
              (fun p => p.1.link),
            changes := [] } t2 a rfl
        simp [Function.comp, applyAnn_id, applyAnn_first_seen, hh]

/-- C1: the diff of a previous announcement set (keyed by link, with the
natural-key and surrogate-id uniqueness invariants of spec section 3) against
a candidate sequence classifies every record: a candidate with an absent link
yields a create and a `new` Change with no old_content; a present link with a
differing content hash yields an update carrying the new hash and new
last_seen together with a `modified` Change carrying both normalized
contents; a present link with a matching hash yields no Change, no create and
no update, only a refresh of last_seen; and a previous entry absent from the
candidate set yields a `removed` Change while its Announcement row survives
the commit undeleted. -/
theorem diff_classifies (previous : List Announcement)
    (candidates : List CandidateRecord) (now : Timestamp)
    (hlinks : (previous.map Announcement.link).Nodup)
    (hids : (previous.map Announcement.id).Nodup)
    (hcand : (candidates.map CandidateRecord.link).Nodup) :
    (∀ c ∈ candidates, (∀ a ∈ previous, a.link ≠ c.link) →
        c ∈ (diff previous candidates now).toCreate ∧
        newChange c now ∈ (diff previous candidates now).changes ∧
        (newChange c now).old_content = none) ∧
    (∀ c ∈ candidates, ∀ a ∈ previous, a.link = c.link →
        content_hash c.content ≠ a.content_hash →
        updateEntryFor a c now ∈ (diff previous candidates now).toUpdate ∧
        (updateEntryFor a c now).new_hash = content_hash c.content ∧
        (updateEntryFor a c now).new_last_seen = now ∧
        modifiedChange a c now ∈ (diff previous candidates now).changes ∧
        (modifiedChange a c now).old_content = some a.content ∧
        (modifiedChange a c now).new_content = some c.content) ∧
    (∀ c ∈ candidates, ∀ a ∈ previous, a.link = c.link →
        content_hash c.content = a.content_hash →
        a.link ∈ (diff previous candidates now).toRefresh ∧
        c ∉ (diff previous candidates now).toCreate ∧
        (∀ u ∈ (diff previous candidates now).toUpdate, u.link ≠ a.link) ∧
        (∀ ch ∈ (diff previous candidates now).changes,
          ch.announcement_id ≠ some a.id)) ∧
    (∀ a ∈ previous, (∀ c ∈ candidates, c.link ≠ a.link) →
        a ∈ (diff previous candidates now).toRemove ∧
        removedChange a now ∈ (diff previous candidates now).changes ∧
        (∀ (st : StoreState), a ∈ st.announcements →
          ∃ b ∈ (applyPlan st (diff previous candidates now) now).announcements,
            b.id = a.id)) := by
  refine ⟨?_, ?_, ?_, ?_⟩
  · intro c hc hno
    have hlook : lookupByLink previous c.link = none := by
      unfold lookupByLink
      rw [List.find?_eq_none]
      intro a ha hbeq
      exact hno a ha (by simpa using hbeq)
    have hnew : c ∈ newCandidates previous candidates :=
      mem_newCandidates.mpr ⟨hc, hlook⟩
    refine ⟨?_, ?_, rfl⟩
    · rw [diff_toCreate_eq]
      exact hnew
    · rw [diff_changes_eq]
      exact List.mem_append_left _
        (List.mem_append_left _ (List.mem_map_of_mem _ hnew))
  · intro c hc a ha halink hne
    have hlook : lookupByLink previous c.link = some a := by
      rw [← halink]
      exact lookupByLink_self hlinks ha
    have hpair : (a, c) ∈ pairedWithPrev previous candidates :=
      mem_pairedWithPrev.mpr ⟨hc, hlook⟩
    have hmod : (a, c) ∈ modifiedPairs previous candidates :=
      mem_modifiedPairs.mpr ⟨hpair, hne⟩
    refine ⟨mem_diff_toUpdate.mpr ⟨(a, c), hmod, rfl⟩, rfl, rfl, ?_, rfl, rfl⟩
    rw [diff_changes_eq]
    exact List.mem_append_left _
      (List.mem_append_right _ (List.mem_map_of_mem _ hmod))
  · intro c hc a ha halink heq
    have hlook : lookupByLink previous c.link = some a := by
      rw [← halink]
      exact lookupByLink_self hlinks ha
    have hpair : (a, c) ∈ pairedWithPrev previous candidates :=
      mem_pairedWithPrev.mpr ⟨hc, hlook⟩
    have hunch : (a, c) ∈ unchangedPairs previous candidates :=
      mem_unchangedPairs.mpr ⟨hpair, heq⟩
    refine ⟨mem_diff_toRefresh.mpr ⟨(a, c), hunch, rfl⟩, ?_, ?_, ?_⟩
    · intro hcontra
      have : lookupByLink previous c.link = none := by
        rw [diff_toCreate_eq] at hcontra
        exact (mem_newCandidates.mp hcontra).2
      rw [hlook] at this
      cases this
    · intro u hu hulink
      obtain ⟨hmod, _⟩ := toUpdate_entry_unique hcand hpair hu hulink
      exact (mem_modifiedPairs.mp hmod).2 heq
    · intro ch hch hchid
      rw [diff_changes_eq] at hch
      rcases List.mem_append.mp hch with hch1 | hchrem
      · rcases List.mem_append.mp hch1 with hchnew | hchmod
        · obtain ⟨c1, _, rfl⟩ := List.mem_map.mp hchnew
          cases hchid
        · obtain ⟨p, hp, rfl⟩ := List.mem_map.mp hchmod
          have hpid : p.1.id = a.id := by
            have := hchid
            simpa [modifiedChange] using this
          have hp1mem : p.1 ∈ previous :=
            (pairedWithPrev_facts (mem_modifiedPairs.mp hp).1).1
          have hp1a : p.1 = a := List.inj_on_of_nodup_map hids hp1mem ha hpid
          have hpPaired : (p.1, p.2) ∈ pairedWithPrev previous candidates :=
            (mem_modifiedPairs.mp hp).1
          rw [hp1a] at hpPaired
          obtain ⟨h1, h2⟩ := pairedWithPrev_link_inj hcand hpPaired hpair rfl
          have : (a, c) ∈ modifiedPairs previous candidates := by
            rw [← hp1a, ← h2]
            exact hp
          exact (mem_modifiedPairs.mp this).2 heq
      · obtain ⟨b, hb, rfl⟩ := List.mem_map.mp hchrem
        have hbid : b.id = a.id := by
          have := hchid
          simpa [removedChange] using this
        have hbmem : b ∈ previous := (mem_removedAnns.mp hb).1
        have hba : b = a := List.inj_on_of_nodup_map hids hbmem ha hbid
        have hbno := (mem_removedAnns.mp hb).2
        rw [hba] at hbno
        exact hbno c hc halink.symm
  · intro a ha hno
    have hmem : a ∈ removedAnns previous candidates :=
      mem_removedAnns.mpr ⟨ha, hno⟩
    refine ⟨?_, ?_, ?_⟩
    · rw [diff_toRemove_eq]
      exact hmem
    · rw [diff_changes_eq]
      exact List.mem_append_right _ (List.mem_map_of_mem _ hmem)
    · intro st hst
      refine ⟨applyAnn (diff previous candidates now) now a, ?_,
        applyAnn_id (diff previous candidates now) now a⟩
      unfold applyPlan
      exact List.mem_append_left _ (List.mem_map_of_mem _ hst)

/-- C3: scanning an empty candidate sequence against a non-empty tracked set
does not remove everything: unless the page parsed as genuinely empty the
orchestrator refuses the diff, leaves the store untouched and flags an error;
only a genuinely-empty parse applies the mass removal (and then the tracked
set empties). -/
theorem empty_scan_guarded (s : SystemState) (now : Timestamp)
    (hne : tracked s.store ≠ []) :
    (runScan s [] false now).store = s.store ∧
    (runScan s [] false now).error = some "mass removal guard: diff not applied" ∧
    tracked (runScan s [] true now).store = [] := by
  have hn : 0 < (tracked s.store).length := List.length_pos.mpr hne
  have hrem : removedAnns (tracked s.store) ([] : List CandidateRecord)
      = tracked s.store := by
    unfold removedAnns
    simp
  have hguard : removalGuardTrips (tracked s.store).length
      (removedAnns (tracked s.store) ([] : List CandidateRecord)).length false = true := by
    rw [hrem]
    unfold removalGuardTrips
    simp only [Bool.not_false, Bool.true_and, decide_eq_true_eq]
    omega
  have h1 := runScan_guard_true s [] false now hguard
  have hguardT : removalGuardTrips (tracked s.store).length
      (removedAnns (tracked s.store) ([] : List CandidateRecord)).length true = false := by
    unfold removalGuardTrips
    simp
  have h2 := runScan_guard_false s [] true now hguardT
  refine ⟨by rw [h1], by rw [h1], ?_⟩
  rw [h2]
  show tracked (applyPlan s.store (diff (tracked s.store) [] now) now) = []
  rw [tracked_applyPlan]
  rw [show (diff (tracked s.store) [] now).toCreate = [] from rfl]
  rw [show createAll [] s.store.next_ann_id now = [] from rfl]
  simp only [List.filter_nil, List.append_nil]
  rw [List.filter_eq_nil_iff]
  intro b hb
  obtain ⟨a, ha, rfl⟩ := List.mem_map.mp hb
  by_cases har : a.removed = true
  · rw [applyAnn_of_removed _ _ _ har]
    simp [har]
  · have har1 : a.removed = false := by simpa using har
    have hmem : a ∈ removedAnns (tracked s.store) ([] : List CandidateRecord) := by
      rw [hrem]
      exact List.mem_filter.mpr ⟨ha, by simp [har1]⟩
    rw [applyAnn_removes har1 hmem]
    simp

/-- C4: a manual trigger arriving while a scan is in flight is a no-op: the
system state is unchanged, so no Change records are produced and nothing is
queued or restarted; the caller is answered "already scanning", and the
frontend scan button is disabled whenever a scan is in flight. -/
theorem trigger_while_scanning_noop (s : SystemState) (h : s.is_scanning = true) :
    (triggerScan s).1 = s ∧
    (triggerScan s).2 = "already scanning" ∧
    (triggerScan s).1.store.changes = s.store.changes ∧
    (∀ d : Bool, scanButtonDisabled d true = true) := by
  unfold triggerScan
  rw [if_pos h]
  exact ⟨rfl, rfl, rfl, fun d => by simp [scanButtonDisabled]⟩

theorem mem_insertByDetectedDesc {c x : Change} {l : List Change} :
    x ∈ insertByDetectedDesc c l ↔ x = c ∨ x ∈ l := by
  induction l with
  | nil => simp [insertByDetectedDesc]
  | cons d ds ih =>
    unfold insertByDetectedDesc
    split
    · rw [List.mem_cons, ih, List.mem_cons]
      tauto
    · exact List.mem_cons

theorem insertByDetectedDesc_pairwise (c : Change) (l : List Change)
    (h : List.Pairwise (fun x y => y.detected_at ≤ x.detected_at) l) :
    List.Pairwise (fun x y => y.detected_at ≤ x.detected_at)
      (insertByDetectedDesc c l) := by
  induction l with
  | nil =>
    simp [insertByDetectedDesc]
  | cons d ds ih =>
    rw [List.pairwise_cons] at h
    obtain ⟨hd, hds⟩ := h
    unfold insertByDetectedDesc
    split
    case isTrue hc =>
      rw [List.pairwise_cons]
      refine ⟨?_, ih hds⟩
      intro x hx
      rcases mem_insertByDetectedDesc.mp hx with rfl | hx1
      · exact hc
      · exact hd x hx1
    case isFalse hc =>
      rw [List.pairwise_cons]
      refine ⟨?_, List.pairwise_cons.mpr ⟨hd, hds⟩⟩
      intro x hx
      rcases List.mem_cons.mp hx with rfl | hx1
      · exact le_of_not_le hc
      · exact le_trans (hd x hx1) (le_of_not_le hc)

theorem sortByDetectedDesc_pairwise (l : List Change) :
    List.Pairwise (fun x y => y.detected_at ≤ x.detected_at)
      (sortByDetectedDesc l) := by
  induction l with
  | nil => simp [sortByDetectedDesc]
  | cons c cs ih => exact insertByDetectedDesc_pairwise c _ ih

/-- C5: Change records are immutable once written: every system operation only
appends to the store's change log (the scan adds a suffix, a rejected trigger
and a settings put leave it untouched), and the client-facing listing
(fetchChanges, default limit 50) returns the newest records first, ordered by
detected_at descending. -/
theorem changes_append_only_and_sorted (s : SystemState)
    (candidates : List CandidateRecord) (ge : Bool) (now : Timestamp)
    (v : Settings) (limit : Nat) :
    (∃ t, (runScan s candidates ge now).store.changes = s.store.changes ++ t) ∧
    (triggerScan s).1.store.changes = s.store.changes ∧
    (putSettings s v now).store.changes = s.store.changes ∧
    List.Pairwise (fun x y => y.detected_at ≤ x.detected_at)
      (listChanges s.store limit) ∧
    fetchChanges s limit = listChanges s.store limit ∧
    fetchChangesDefault s = listChanges s.store 50 := by
  refine ⟨?_, ?_, rfl, ?_, rfl, rfl⟩
  · cases hguard : removalGuardTrips (tracked s.store).length
        (removedAnns (tracked s.store) candidates).length ge with
    | true =>
      rw [runScan_guard_true s candidates ge now hguard]
      exact ⟨[], (List.append_nil _).symm⟩
    | false =>
      rw [runScan_guard_false s candidates ge now hguard]
      exact ⟨_, rfl⟩
  · unfold triggerScan
    split
    · rfl
    · rfl
  · unfold listChanges
    exact (sortByDetectedDesc_pairwise s.store.changes).sublist
      (List.take_sublist _ _)

/-- C6: the ScanStatus snapshot exposed to the client carries next_auto_scan,
the timestamp of the next scheduled automatic run; it is recomputed after
every scan completion (whether the diff was applied or refused) and after
every settings put, relative to the most recent scan. -/
theorem status_next_auto_scan (s : SystemState) (candidates : List CandidateRecord)
    (ge : Bool) (now : Timestamp) (v : Settings) :
    (getStatus s).next_auto_scan = s.next_auto_scan ∧
    (fetchStatus s).next_auto_scan = s.next_auto_scan ∧
    (runScan s candidates ge now).next_auto_scan
      = some (now + 1000 * s.settings.refresh_interval) ∧
    (putSettings s v now).next_auto_scan
      = some (s.last_scan.getD now + 1000 * v.refresh_interval) := by
  refine ⟨rfl, rfl, ?_, rfl⟩
  cases hguard : removalGuardTrips (tracked s.store).length
      (removedAnns (tracked s.store) candidates).length ge with
  | true => rw [runScan_guard_true s candidates ge now hguard]
  | false => rw [runScan_guard_false s candidates ge now hguard]

/-- C7: the API surface exposes settings get and put to the client alongside
the status snapshot, the listings and the scan trigger: fetchSettings returns
the current settings, updateSettings stores new settings (a get after a put
returns them), and the trigger answers either "started" or
"already scanning". -/
theorem settings_get_put_exposed (s : SystemState) (v : Settings)
    (now : Timestamp) (limit : Nat) :
    fetchSettings s = s.settings ∧
    fetchSettings (updateSettings s v now) = v ∧
    (updateSettings s v now).settings = v ∧
    fetchStatus s = getStatus s ∧
    fetchAnnouncements s = tracked s.store ∧
    fetchChanges s limit = listChanges s.store limit ∧
    ((triggerScan s).2 = "started" ∨ (triggerScan s).2 = "already scanning") := by
  refine ⟨rfl, rfl, rfl, rfl, rfl, rfl, ?_⟩
  unfold triggerScan
  split
  · right
    rfl
  · left
    rfl

theorem addRecipient_interval (st : EditorState) :
    (addRecipient st).settings.refresh_interval = st.settings.refresh_interval := by
  simp only [addRecipient]
  repeat' split
  all_goals rfl

theorem sliderClamp_bounds (v : Int) :
    60 ≤ (sliderClamp v).toNat ∧ (sliderClamp v).toNat ≤ 3600 := by
  unfold sliderClamp
  constructor
  · have h1 : (60 : Int) ≤ max 60 (min 3600 v) := le_max_left _ _
    omega
  · have h2 : max 60 (min 3600 v) ≤ 3600 := max_le (by norm_num) (min_le_left _ _)
    omega

theorem applyOp_interval_bounds {st : EditorState} (op : EditorOp)
    (h : 60 ≤ st.settings.refresh_interval ∧ st.settings.refresh_interval ≤ 3600) :
    60 ≤ (applyOp st op).settings.refresh_interval ∧
      (applyOp st op).settings.refresh_interval ≤ 3600 := by
  cases op with
  | add input =>
    show 60 ≤ (addRecipient { st with newRecipient := input }).settings.refresh_interval
      ∧ (addRecipient { st with newRecipient := input }).settings.refresh_interval ≤ 3600
    rw [addRecipient_interval]
    exact h
  | remove email => exact h
  | setInterval v => exact sliderClamp_bounds v

theorem applyOps_interval_bounds (st : EditorState) (ops : List EditorOp)
    (h : 60 ≤ st.settings.refresh_interval ∧ st.settings.refresh_interval ≤ 3600) :
    60 ≤ (applyOps st ops).settings.refresh_interval ∧
      (applyOps st ops).settings.refresh_interval ≤ 3600 := by
  induction ops generalizing st with
  | nil => exact h
  | cons op ops ih => exact ih _ (applyOp_interval_bounds op h)

/-- C8: refresh_interval stays within the bounds 60 to 3600 inclusive: the
slider clamps every raw value into the bounds before it is stored, and every
sequence of editor interactions keeps a compliant settings state compliant. -/
theorem refresh_interval_bounded (st : EditorState) (ops : List EditorOp) (v : Int)
    (h : 60 ≤ st.settings.refresh_interval ∧ st.settings.refresh_interval ≤ 3600) :
    (60 ≤ (sliderClamp v).toNat ∧ (sliderClamp v).toNat ≤ 3600) ∧
    (60 ≤ (setRefreshInterval st v).settings.refresh_interval ∧
      (setRefreshInterval st v).settings.refresh_interval ≤ 3600) ∧
    (60 ≤ (applyOps st ops).settings.refresh_interval ∧
      (applyOps st ops).settings.refresh_interval ≤ 3600) :=
  ⟨sliderClamp_bounds v, sliderClamp_bounds v, applyOps_interval_bounds st ops h⟩

theorem addRecipient_nodup {st : EditorState}
    (hnd : st.settings.email_recipients.Nodup) :
    (addRecipient st).settings.email_recipients.Nodup := by
  simp only [addRecipient]
  split
  · exact hnd
  split
  · exact hnd
  split
  · exact hnd
  · rename_i h3
    refine List.Nodup.append hnd (List.nodup_singleton _) ?_
    intro x hx1 hx2
    rw [List.mem_singleton] at hx2
    subst hx2
    exact h3 (contains_iff_mem.mpr hx1)

theorem removeRecipient_nodup {st : EditorState} (email : String)
    (hnd : st.settings.email_recipients.Nodup) :
    (removeRecipient st email).settings.email_recipients.Nodup :=
  hnd.filter _

theorem applyOp_nodup {st : EditorState} (op : EditorOp)
    (hnd : st.settings.email_recipients.Nodup) :
    (applyOp st op).settings.email_recipients.Nodup := by
  cases op with
  | add input => exact addRecipient_nodup hnd
  | remove email => exact removeRecipient_nodup email hnd
  | setInterval v => exact hnd

theorem applyOps_nodup (st : EditorState) (ops : List EditorOp)
    (hnd : st.settings.email_recipients.Nodup) :
    (applyOps st ops).settings.email_recipients.Nodup := by
  induction ops generalizing st with
  | nil => exact hnd
  | cons op ops ih => exact ih _ (applyOp_nodup op hnd)

/-- C9 fails as stated at the blank input: a whitespace-only address contains
no at sign and is indeed rejected (the list is unchanged), but addRecipient
returns without setting any error, contradicting the claimed "setting an
error". -/
theorem addRecipient_blank_no_error :
    containsAt " " = false ∧
    (addRecipient exEditorBlank).settings.email_recipients
      = exEditorBlank.settings.email_recipients ∧
    (addRecipient exEditorBlank).error = none := by
  decide

/-- C9 (amended): a blank (whitespace-only) input is ignored without setting
an error; a non-blank input without an at sign, or whose trimmed form is
already listed, is rejected with an error and the list unchanged; an accepted
input appends its trimmed form; removeRecipient keeps exactly the
non-matching addresses; and every sequence of add/remove/slider interactions
starting from a duplicate-free recipient list keeps it duplicate-free. -/
theorem recipients_editor_behaviour (st : EditorState) (input email : String)
    (ops : List EditorOp) (hnd : st.settings.email_recipients.Nodup) :
    ((jsTrim input).data.isEmpty = true →
       addRecipient { st with newRecipient := input }
         = { st with newRecipient := input }) ∧
    ((jsTrim input).data.isEmpty = false → containsAt input = false →
       (addRecipient { st with newRecipient := input }).settings.email_recipients
           = st.settings.email_recipients ∧
       (addRecipient { st with newRecipient := input }).error
           = some "Please enter a valid email address") ∧
    ((jsTrim input).data.isEmpty = false → containsAt input = true →
       st.settings.email_recipients.contains (jsTrim input) = true →
       (addRecipient { st with newRecipient := input }).settings.email_recipients
           = st.settings.email_recipients ∧
       (addRecipient { st with newRecipient := input }).error
           = some "Email already in recipients list") ∧
    ((jsTrim input).data.isEmpty = false → containsAt input = true →
       st.settings.email_recipients.contains (jsTrim input) = false →
       (addRecipient { st with newRecipient := input }).settings.email_recipients
           = st.settings.email_recipients ++ [jsTrim input]) ∧
    ((removeRecipient st email).settings.email_recipients
       = st.settings.email_recipients.filter (fun r => r != email)) ∧
    (email ∉ (removeRecipient st email).settings.email_recipients) ∧
    (∀ r ∈ st.settings.email_recipients, r ≠ email →
       r ∈ (removeRecipient st email).settings.email_recipients) ∧
    (applyOps st ops).settings.email_recipients.Nodup := by
  refine ⟨?_, ?_, ?_, ?_, rfl, ?_, ?_, applyOps_nodup st ops hnd⟩
  · intro h1
    simp [addRecipient, h1]
  · intro h1 h2
    simp [addRecipient, h1, h2]
  · intro h1 h2 h3
    have h3m : jsTrim input ∈ st.settings.email_recipients := contains_iff_mem.mp h3
    simp [addRecipient, h1, h2, h3m]
  · intro h1 h2 h3
    have h3m : jsTrim input ∉ st.settings.email_recipients := by
      intro hcontra
      rw [contains_iff_mem.mpr hcontra] at h3
      cases h3
    simp [addRecipient, h1, h2, h3m]
  · simp [removeRecipient, List.mem_filter]
  · intro r hr hne
    exact List.mem_filter.mpr ⟨hr, by simp [hne]⟩

/-- C10: on the first load (observed change count still zero) no alert is
shown and no sound plays even if the fetched list is non-empty; a load that
does not return strictly more changes than previously observed raises no
alert either; and a load returning strictly more changes while the previous
count was positive raises the alert with sound, the payload being exactly the
first (newest) length-difference entries of the fetched list. -/
theorem load_data_alert (st : AppAlertState) (data : List Change) :
    (st.lastChangeCount = 0 →
       loadDataChanges st data = ({ st with lastChangeCount := data.length }, false)) ∧
    (data.length ≤ st.lastChangeCount →
       loadDataChanges st data = ({ st with lastChangeCount := data.length }, false)) ∧
    (st.lastChangeCount > 0 → data.length > st.lastChangeCount →
       loadDataChanges st data
         = ({ lastChangeCount := data.length, showAlert := true,
              newChanges := data.take (data.length - st.lastChangeCount) }, true)) := by
  refine ⟨?_, ?_, ?_⟩
  · intro h0
    unfold loadDataChanges
    rw [if_neg (by omega)]
  · intro hle
    unfold loadDataChanges
    rw [if_neg (by omega)]
  · intro hpos hgt
    unfold loadDataChanges
    rw [if_pos ⟨hgt, hpos⟩]
    rw [if_pos (by rw [List.length_take]; omega)]

/-- Witness for C1 at a concrete previous set and candidate sequence. -/
theorem diff_classifies_witness :
    (([exAnnA].map Announcement.link).Nodup ∧
      ([exAnnA].map Announcement.id).Nodup ∧
      ([exCandA, exCandB].map CandidateRecord.link).Nodup) ∧
    (exCandB ∈ (diff [exAnnA] [exCandA, exCandB] 5).toCreate ∧
      newChange exCandB 5 ∈ (diff [exAnnA] [exCandA, exCandB] 5).changes) :=
  ⟨⟨by decide, by decide, by decide⟩, by
    have h := diff_classifies [exAnnA] [exCandA, exCandB] 5
      (by decide) (by decide) (by decide)
    have hnew := h.1 exCandB (by decide) (by decide)
    exact ⟨hnew.1, hnew.2.1⟩⟩

/-- Witness for C2 at a concrete system state and candidate sequence. -/
theorem scan_idempotent_witness :
    (((tracked exSys.store).map Announcement.link).Nodup ∧
      ([exCandA, exCandB].map CandidateRecord.link).Nodup) ∧
    (runScan (runScan exSys [exCandA, exCandB] false 5)
        [exCandA, exCandB] false 9).store.changes
      = (runScan exSys [exCandA, exCandB] false 5).store.changes :=
  ⟨⟨by decide, by decide⟩,
    (scan_idempotent exSys [exCandA, exCandB] false 5 9 (by decide) (by decide)).1⟩

/-- Witness for C3 at a concrete non-empty tracked set. -/
theorem empty_scan_guarded_witness :
    tracked exSys.store ≠ [] ∧ (runScan exSys [] false 7).store = exSys.store :=
  ⟨by decide, (empty_scan_guarded exSys 7 (by decide)).1⟩

/-- Witness for C4 at a concrete in-flight scan state. -/
theorem trigger_while_scanning_noop_witness :
    exSysScanning.is_scanning = true ∧
      (triggerScan exSysScanning).2 = "already scanning" :=
  ⟨rfl, (trigger_while_scanning_noop exSysScanning rfl).2.1⟩

/-- Witness for C8 at a concrete editor state and an out-of-range slider
value. -/
theorem refresh_interval_bounded_witness :
    (60 ≤ exEditor.settings.refresh_interval ∧
      exEditor.settings.refresh_interval ≤ 3600) ∧
    (60 ≤ (applyOps exEditor [EditorOp.setInterval 999999]).settings.refresh_interval ∧
      (applyOps exEditor [EditorOp.setInterval 999999]).settings.refresh_interval ≤ 3600) :=
  ⟨by decide,
    (refresh_interval_bounded exEditor [EditorOp.setInterval 999999] 999999 (by decide)).2.2⟩

/-- Witness for the amended C9 at a concrete duplicate-free editor state. -/
theorem recipients_editor_behaviour_witness :
    exEditor.settings.email_recipients.Nodup ∧
    (applyOps exEditor
        [EditorOp.add "a@b", EditorOp.remove "x"]).settings.email_recipients.Nodup :=
  ⟨by decide,
    (recipients_editor_behaviour exEditor "a@b" "x"
      [EditorOp.add "a@b", EditorOp.remove "x"] (by decide)).2.2.2.2.2.2.2⟩

/-- Witness for C10 at a concrete later load that returns strictly more
changes than previously observed. -/
theorem load_data_alert_witness :
    (exAlertSt.lastChangeCount > 0 ∧
      ([exChange 2 9, exChange 1 5] : List Change).length > exAlertSt.lastChangeCount) ∧
    loadDataChanges exAlertSt [exChange 2 9, exChange 1 5]
      = ({ lastChangeCount := 2, showAlert := true,
           newChanges := [exChange 2 9] }, true) :=
  ⟨by decide,
    (load_data_alert exAlertSt [exChange 2 9, exChange 1 5]).2.2 (by decide) (by decide)⟩

end SiteWatcher
